import Mathlib

/-!
# Verification of the `scr` directory scanner

A shallow embedding, in Lean, of the scan/aggregation core of `scr`
(`src/main.rs`): a concurrent directory-tree walker (`scan_dir`) that forwards
large-file candidates over an unbounded channel to a single aggregator thread
(`print_files`), which owns the bounded top-N set `entries` and the shared
atomic pruning floor `min_size`.

The aggregator is embedded as a pure fold over the list of channel events in
their arrival order (the channel is multi-producer single-consumer and the
aggregator is its sole, sequential consumer, so a run of the aggregator is
fully determined by the arrival order of events).  The walker is embedded as a
recursion over a tree of directory entries; each regular file carries the
threshold value its walker observed at its `min_size.load(SeqCst)` (reads are
stale-tolerant, so the observed value is an arbitrary scenario parameter), and
fallible operations are represented with `Option`, where `none` stands for a
Rust panic (`unwrap` on an `Err`).  `u64`/`usize` quantities are modelled as
`Nat`; the modelled code only ever adds small counters and compares sizes, so
no `u64` wrap-around is reachable and none is modelled.
-/

/-- Rust `struct Filesize` of `main.rs`: path, size in bytes, and the three
pre-rendered timestamp strings produced by `display_time`. -/
structure Filesize where
  path : String
  size : Nat
  modified : String
  created : String
  used : String
deriving DecidableEq

/-- Rust `struct ScanResult` of `main.rs`: the four per-scan counters. -/
structure ScanResult where
  errors : Nat
  permission_denied : Nat
  files : Nat
  directories : Nat
deriving DecidableEq

/-- Rust `impl AddAssign for ScanResult`: field-wise sum. -/
def ScanResult.add (a b : ScanResult) : ScanResult :=
  ⟨a.errors + b.errors, a.permission_denied + b.permission_denied,
   a.files + b.files, a.directories + b.directories⟩

/-- Rust `ScanResult::default()`: all counters zero. -/
def ScanResult.zero : ScanResult := ⟨0, 0, 0, 0⟩

/-- Rust `enum StatusUpdate` of `main.rs`: the events carried by the channel. -/
inductive StatusUpdate where
  | Result (sr : ScanResult)
  | File (f : Filesize)
deriving DecidableEq

/-- The comparator of `entries.sort_by(|a, b| b.size.cmp(&a.size))`
(main.rs:186): `sizeGe a b` holds when `a` may come before `b` in the
descending-by-size order. -/
def sizeGe (a b : Filesize) : Prop := b.size ≤ a.size

instance : DecidableRel sizeGe := fun a b => Nat.decLe b.size a.size

instance : IsTotal Filesize sizeGe := ⟨fun a b => Nat.le_total b.size a.size⟩

instance : IsTrans Filesize sizeGe := ⟨fun _ _ _ h1 h2 => Nat.le_trans h2 h1⟩

/-- Rust's `sort_by` is a stable sort; `List.insertionSort` with `sizeGe` is
a stable descending-by-size sort: elements of equal size keep their original
(push/arrival) order, so among equal sizes the earlier arrival keeps the
higher rank, exactly as `entries.sort_by(|a, b| b.size.cmp(&a.size))` does. -/
def sortByDescSize (l : List Filesize) : List Filesize :=
  List.insertionSort sizeGe l

/-- The aggregator's state in `print_files`: the top-N list `entries`, the
value currently stored in the shared `min_size` atomic (only this thread ever
stores it), and the running `current_status` totals. -/
structure AggState where
  entries : List Filesize
  minSize : Nat
  status : ScanResult
deriving DecidableEq

/-- Lines 188-190 of `main.rs`:
`if entries.len() > n { entries.truncate(n); }`. -/
def truncateTo (n : Nat) (l : List Filesize) : List Filesize :=
  if n < l.length then l.take n else l

/-- Lines 192-194 of `main.rs`:
`if let Some(entry) = entries.last() { min_size.store(entry.size, SeqCst) }` —
adopt the sorted, truncated list and publish the size of its last (smallest)
element to the shared threshold; when the list is empty no store happens. -/
def storeLast (s : AggState) (l : List Filesize) : AggState :=
  match l.getLast? with
  | some e => { s with entries := l, minSize := e.size }
  | none => { s with entries := l }

/-- The `StatusUpdate::File` arm of `print_files` (main.rs:181-198): re-check
the candidate against the freshly loaded `min_size` (strict `>`); when it
passes, push it, stable-sort descending by size, truncate to `n`, and store
the new last element's size into `min_size`. -/
def processFile (n : Nat) (s : AggState) (f : Filesize) : AggState :=
  if s.minSize < f.size then
    storeLast s (truncateTo n (sortByDescSize (s.entries ++ [f])))
  else s

/-- One iteration of the aggregator's receive loop in `print_files`:
`Result` deltas are merged into the running totals (the periodic redraw has no
effect on the state), `File` candidates go through the top-N insertion. -/
def processEvent (n : Nat) (s : AggState) (ev : StatusUpdate) : AggState :=
  match ev with
  | StatusUpdate.Result sr => { s with status := s.status.add sr }
  | StatusUpdate.File f => processFile n s f

/-- The whole aggregator run of `print_files`: fold the receive loop over the
arrival-ordered event list, starting from an empty top-N list and the
user-configured minimum size in the shared threshold (main.rs:163-204 together
with the `AtomicU64::new(args.minsize)` initialisation at main.rs:212). -/
def runAgg (n minsize : Nat) (evs : List StatusUpdate) : AggState :=
  evs.foldl (processEvent n) { entries := [], minSize := minsize, status := ScanResult.zero }

/-- Outcome of a `send` on the tokio unbounded channel: delivered while the
receiver is alive, `Err(SendError)` once the receiver has been dropped. -/
inductive SendOutcome where
  | delivered
  | closed
deriving DecidableEq

/-- Semantics of `UnboundedSender::send` as seen by a producer. -/
def channelSend (consumerAlive : Bool) : SendOutcome :=
  if consumerAlive then SendOutcome.delivered else SendOutcome.closed

/-- Line 129 of `main.rs`:
`tx_file.send(e.path().into()).unwrap_or_default()` — the result of a
candidate send is discarded, so a closed channel is silently ignored.
`some ()` means normal continuation; `none` would mean a panic. -/
def candidateSendEffect (o : SendOutcome) : Option Unit :=
  match o with
  | SendOutcome.delivered => some ()
  | SendOutcome.closed => some ()

/-- Line 239 of `main.rs`:
`tx.send(StatusUpdate::Result(final_res)).unwrap()` — the final result-delta
send is unwrapped, so a closed channel panics (`none`). -/
def resultSendEffect (o : SendOutcome) : Option Unit :=
  match o with
  | SendOutcome.delivered => some ()
  | SendOutcome.closed => none

/-- The two error kinds `scan_dir` distinguishes on every `Err(e)`:
`e.kind() == ErrorKind::PermissionDenied` versus everything else. -/
inductive ErrKind where
  | permission
  | other
deriving DecidableEq

/-- One filesystem object as `scan_dir` observes it.  Each constructor fixes
the outcomes of the system calls the code performs on that object, so a tree
of `FsNode`s is one complete scan scenario:

* `file p sz obs meta2`: `e.file_type()` returned a regular file, the first
  `e.metadata()` in `scan_dir` succeeded with length `sz`, the walker's
  `min_size.load(SeqCst)` observed the (possibly stale) value `obs`, and
  `meta2` tells whether the second `path.metadata()` performed inside
  `From<PathBuf> for StatusUpdate` still succeeds — it carries the three
  `display_time` strings — or fails (`none`) because the path disappeared.
* `symlink target`: `e.file_type()` returned a symlink.  `DirEntry::file_type`
  does not follow links, so this holds whatever the link points at; the
  (never dereferenced) target is carried only to state that fact.
* `fileMetaErr k`: `e.file_type()` returned a regular file but `e.metadata()`
  failed with kind `k`.
* `typeErr k`: `e.file_type()` itself failed with kind `k`.
* `readableDir metaDev es`: a directory whose `read_dir` succeeds, listing
  `es`; `metaDev` is the device id its `e.metadata()` reports in the
  device-boundary check (`none` when that metadata call fails).
* `unreadableDir metaDev k hidden`: a directory whose `read_dir` fails with
  kind `k`; `hidden` is the listing that would have been there, carried to
  state that nothing of it is ever visited. -/
inductive FsNode where
  | file (path : String) (size : Nat) (obsFloor : Nat)
      (meta2 : Option (String × String × String))
  | symlink (target : Option FsNode)
  | fileMetaErr (k : ErrKind)
  | typeErr (k : ErrKind)
  | readableDir (metaDev : Option Nat) (entries : List FsNode)
  | unreadableDir (metaDev : Option Nat) (k : ErrKind) (hidden : List FsNode)

/-- The two `Err` match arms of `scan_dir`: one `permission_denied` count for
an access-denied error, one `errors` count for anything else. -/
def countErr (k : ErrKind) : ScanResult :=
  match k with
  | ErrKind.permission => ⟨0, 1, 0, 0⟩
  | ErrKind.other => ⟨1, 0, 0, 0⟩

/-- The device-boundary check of `scan_dir` (main.rs:103-109): a subdirectory
is skipped (`enter = false`) exactly when its metadata was readable and
reported a device that differs from the current one and is not in the allowed
set; when the metadata call fails the directory is entered. -/
def dirSkip (allowed : List Nat) (currentDev : Nat) (metaDev : Option Nat) : Bool :=
  match metaDev with
  | some d => d != currentDev && !(allowed.contains d)
  | none => false

/-- The device passed to the recursive `scan_dir` call (main.rs:101-117):
`dev` is updated to the subdirectory's device when its metadata was readable,
otherwise it stays the current device. -/
def entryDev (currentDev : Nat) (metaDev : Option Nat) : Nat :=
  match metaDev with
  | some d => d
  | none => currentDev

/-- `impl From<PathBuf> for StatusUpdate` (main.rs:32-43): builds the
`Filesize` candidate by calling `path.metadata().unwrap()` again; if the path
has disappeared in the meantime this `unwrap` panics, modelled as `none`. -/
def statusUpdateOfPath (path : String) (size : Nat)
    (meta2 : Option (String × String × String)) : Option Filesize :=
  match meta2 with
  | some (m, c, u) => some ⟨path, size, m, c, u⟩
  | none => none

mutual

/-- The per-entry closure of `scan_dir`'s `par_iter().map(...)`
(main.rs:96-148), evaluated together with the recursive `scan_dir` call it
makes for subdirectories.  Returns the entry's `ScanResult` contribution and
the candidates it sends, or `none` when processing panics. -/
def processEntry (allowed : List Nat) (currentDev : Nat) :
    FsNode → Option (ScanResult × List Filesize)
  | FsNode.file p sz obs m2 =>
      if obs ≤ sz then
        match statusUpdateOfPath p sz m2 with
        | some fs => some (⟨0, 0, 1, 0⟩, [fs])
        | none => none
      else some (⟨0, 0, 1, 0⟩, [])
  | FsNode.symlink _ => some (⟨0, 0, 1, 0⟩, [])
  | FsNode.fileMetaErr k => some (countErr k, [])
  | FsNode.typeErr k => some (countErr k, [])
  | FsNode.readableDir md es =>
      if dirSkip allowed currentDev md then some (ScanResult.zero, [])
      else
        match scanEntries allowed (entryDev currentDev md) es with
        | some (r, cs) => some ({ r with directories := r.directories + 1 }, cs)
        | none => none
  | FsNode.unreadableDir md k _ =>
      if dirSkip allowed currentDev md then some (ScanResult.zero, [])
      else some (countErr k, [])

/-- The body of `scan_dir`'s `Ok(dir_iter)` branch applied to a listing:
process every entry and sum the resulting `ScanResult`s (main.rs:94-155); a
panic in any entry propagates out of the `collect`. -/
def scanEntries (allowed : List Nat) (currentDev : Nat) :
    List FsNode → Option (ScanResult × List Filesize)
  | [] => some (ScanResult.zero, [])
  | e :: es =>
      match processEntry allowed currentDev e with
      | none => none
      | some (r1, c1) =>
          match scanEntries allowed currentDev es with
          | none => none
          | some (r2, c2) => some (r1.add r2, c1 ++ c2)

end

/-- `scan_dir` itself, applied to the root node (main.rs:77-161): on a
readable directory it processes the listing and adds its own
`result.directories += 1`; on an unreadable one it records exactly one error
count; a root that is not a directory makes `read_dir` fail with a
non-permission error. -/
def scanDir (allowed : List Nat) (dev : Nat) : FsNode → Option (ScanResult × List Filesize)
  | FsNode.readableDir _ es =>
      match scanEntries allowed dev es with
      | some (r, cs) => some ({ r with directories := r.directories + 1 }, cs)
      | none => none
  | FsNode.unreadableDir _ k _ => some (countErr k, [])
  | _ => some (⟨1, 0, 0, 0⟩, [])

mutual

/-- Specification-side count of the directories a scan starting at this entry
successfully opens: a readable directory that is not skipped by the device
boundary counts once, plus the directories opened below it; everything else
opens none. -/
def openedDirs (allowed : List Nat) (currentDev : Nat) : FsNode → Nat
  | FsNode.readableDir md es =>
      if dirSkip allowed currentDev md then 0
      else openedDirsList allowed (entryDev currentDev md) es + 1
  | _ => 0

/-- Sum of `openedDirs` over a listing. -/
def openedDirsList (allowed : List Nat) (currentDev : Nat) : List FsNode → Nat
  | [] => 0
  | e :: es => openedDirs allowed currentDev e + openedDirsList allowed currentDev es

end

/-- Specification-side count of successfully opened directories for the root
call of `scan_dir`: the root is opened itself (no device check applies to it)
when readable. -/
def openedDirsRoot (allowed : List Nat) (dev : Nat) : FsNode → Nat
  | FsNode.readableDir _ es => openedDirsList allowed dev es + 1
  | _ => 0

/-- The invariant the aggregator maintains: every retained entry is at least
as large as the value currently stored in the shared threshold. -/
def ThresholdInv (s : AggState) : Prop := ∀ e ∈ s.entries, s.minSize ≤ e.size

lemma getLastOpt_le_of_pairwise :
    ∀ {l : List Filesize} {e : Filesize}, l.Pairwise sizeGe → l.getLast? = some e →
      ∀ x ∈ l, e.size ≤ x.size
  | [], _, _, h, _, hx => absurd h (by simp)
  | [a], e, hp, h, x, hx => by
      simp only [List.getLast?_singleton, Option.some.injEq] at h
      subst h
      simp only [List.mem_singleton] at hx
      subst hx
      exact Nat.le_refl _
  | a :: b :: t, e, hp, h, x, hx => by
      rw [List.getLast?_cons_cons] at h
      have hp' := List.pairwise_cons.mp hp
      have ih := getLastOpt_le_of_pairwise hp'.2 h
      rcases List.mem_cons.mp hx with rfl | hx'
      · have he : e ∈ b :: t := List.mem_of_getLast?_eq_some h
        exact hp'.1 e he
      · exact ih x hx'

lemma truncateTo_pairwise {n : Nat} {l : List Filesize} (h : l.Pairwise sizeGe) :
    (truncateTo n l).Pairwise sizeGe := by
  rw [truncateTo]
  split
  · exact List.Pairwise.sublist (List.take_sublist n l) h
  · exact h

lemma truncateTo_subset {n : Nat} {l : List Filesize} {x : Filesize}
    (h : x ∈ truncateTo n l) : x ∈ l := by
  rw [truncateTo] at h
  split at h
  · exact (List.take_sublist n l).subset h
  · exact h

lemma truncateTo_length_le (n : Nat) (l : List Filesize) : (truncateTo n l).length ≤ n := by
  rw [truncateTo]
  split
  · rw [List.length_take]
    exact Nat.min_le_left _ _
  · next h => exact Nat.le_of_not_lt h

lemma truncateTo_ne_nil {n : Nat} {l : List Filesize} (hn : 1 ≤ n) (hl : l ≠ []) :
    truncateTo n l ≠ [] := by
  rw [truncateTo]
  split
  · next hlen =>
      have : 0 < (l.take n).length := by
        rw [List.length_take]
        exact Nat.lt_min.mpr
          ⟨hn, Nat.lt_of_lt_of_le (Nat.lt_of_lt_of_le Nat.zero_lt_one hn) (Nat.le_of_lt hlen)⟩
      exact List.ne_nil_of_length_pos this
  · exact hl

lemma sortByDescSize_pairwise (l : List Filesize) : (sortByDescSize l).Pairwise sizeGe :=
  List.sorted_insertionSort sizeGe l

lemma mem_sortByDescSize {l : List Filesize} {x : Filesize} :
    x ∈ sortByDescSize l ↔ x ∈ l :=
  (List.perm_insertionSort sizeGe l).mem_iff

lemma processEvent_step (n : Nat) (s : AggState) (ev : StatusUpdate) (hInv : ThresholdInv s) :
    s.minSize ≤ (processEvent n s ev).minSize ∧ ThresholdInv (processEvent n s ev) := by
  cases ev with
  | Result sr => exact ⟨Nat.le_refl _, hInv⟩
  | File f =>
      show s.minSize ≤ (processFile n s f).minSize ∧ ThresholdInv (processFile n s f)
      rw [processFile]
      split
      · next hacc =>
          have hpw : (truncateTo n (sortByDescSize (s.entries ++ [f]))).Pairwise sizeGe :=
            truncateTo_pairwise (sortByDescSize_pairwise _)
          have hmem : ∀ x ∈ truncateTo n (sortByDescSize (s.entries ++ [f])),
              s.minSize ≤ x.size := by
            intro x hx
            have hx2 : x ∈ s.entries ++ [f] := mem_sortByDescSize.mp (truncateTo_subset hx)
            rcases List.mem_append.mp hx2 with hx3 | hx3
            · exact hInv x hx3
            · rw [List.mem_singleton] at hx3
              subst hx3
              exact Nat.le_of_lt hacc
          cases hl : (truncateTo n (sortByDescSize (s.entries ++ [f]))).getLast? with
          | none =>
              simp only [storeLast, hl]
              exact ⟨Nat.le_refl _, hmem⟩
          | some e =>
              simp only [storeLast, hl]
              refine ⟨hmem e (List.mem_of_getLast?_eq_some hl), ?_⟩
              intro x hx
              exact getLastOpt_le_of_pairwise hpw hl x hx
      · exact ⟨Nat.le_refl _, hInv⟩

lemma foldl_threshold_inv (n : Nat) :
    ∀ (evs : List StatusUpdate) (s : AggState), ThresholdInv s →
      ThresholdInv (evs.foldl (processEvent n) s)
  | [], _, h => h
  | ev :: evs, s, h => foldl_threshold_inv n evs _ ((processEvent_step n s ev h).2)

lemma runAgg_inv (n m : Nat) (evs : List StatusUpdate) : ThresholdInv (runAgg n m evs) :=
  foldl_threshold_inv n evs _ (by intro e he; cases he)

lemma processEvent_length (n : Nat) (s : AggState) (ev : StatusUpdate)
    (h : s.entries.length ≤ n) : (processEvent n s ev).entries.length ≤ n := by
  cases ev with
  | Result sr => exact h
  | File f =>
      show (processFile n s f).entries.length ≤ n
      rw [processFile]
      split
      · next hacc =>
          have hle := truncateTo_length_le n (sortByDescSize (s.entries ++ [f]))
          cases hl : (truncateTo n (sortByDescSize (s.entries ++ [f]))).getLast? with
          | none => simpa only [storeLast, hl] using hle
          | some e => simpa only [storeLast, hl] using hle
      · exact h

lemma processFile_accepted (n : Nat) (s : AggState) (f : Filesize)
    (hn : 1 ≤ n) (hacc : s.minSize < f.size) :
    (processFile n s f).minSize ∈ (processFile n s f).entries.map Filesize.size ∧
    ∀ e ∈ (processFile n s f).entries, (processFile n s f).minSize ≤ e.size := by
  rw [processFile, if_pos hacc]
  have hpw : (truncateTo n (sortByDescSize (s.entries ++ [f]))).Pairwise sizeGe :=
    truncateTo_pairwise (sortByDescSize_pairwise _)
  have hne : truncateTo n (sortByDescSize (s.entries ++ [f])) ≠ [] := by
    apply truncateTo_ne_nil hn
    intro hnil
    have := (List.perm_insertionSort sizeGe (s.entries ++ [f])).length_eq
    rw [sortByDescSize] at hnil
    rw [hnil] at this
    simp at this
  cases hl : (truncateTo n (sortByDescSize (s.entries ++ [f]))).getLast? with
  | none => exact absurd (List.getLast?_eq_none_iff.mp hl) hne
  | some e =>
      simp only [storeLast, hl]
      constructor
      · exact List.mem_map_of_mem Filesize.size (List.mem_of_getLast?_eq_some hl)
      · exact getLastOpt_le_of_pairwise hpw hl

mutual

theorem dirs_processEntry (allowed : List Nat) (dev : Nat) (e : FsNode)
    (r : ScanResult) (cs : List Filesize)
    (h : processEntry allowed dev e = some (r, cs)) :
    r.directories = openedDirs allowed dev e := by
  cases e with
  | file p sz obs m2 =>
      rw [processEntry] at h
      split at h
      · cases hm : statusUpdateOfPath p sz m2 <;> rw [hm] at h
        · exact absurd h (by simp)
        · simp only [Option.some.injEq, Prod.mk.injEq] at h
          obtain ⟨h1, h2⟩ := h
          subst h1
          rfl
      · simp only [Option.some.injEq, Prod.mk.injEq] at h
        obtain ⟨h1, h2⟩ := h
        subst h1
        rfl
  | symlink t =>
      rw [processEntry] at h
      simp only [Option.some.injEq, Prod.mk.injEq] at h
      obtain ⟨h1, h2⟩ := h
      subst h1
      rfl
  | fileMetaErr k =>
      rw [processEntry] at h
      simp only [Option.some.injEq, Prod.mk.injEq] at h
      obtain ⟨h1, h2⟩ := h
      subst h1
      cases k <;> rfl
  | typeErr k =>
      rw [processEntry] at h
      simp only [Option.some.injEq, Prod.mk.injEq] at h
      obtain ⟨h1, h2⟩ := h
      subst h1
      cases k <;> rfl
  | readableDir md es =>
      rw [processEntry] at h
      split at h
      · next hskip =>
          simp only [Option.some.injEq, Prod.mk.injEq] at h
          obtain ⟨h1, h2⟩ := h
          subst h1
          rw [openedDirs, if_pos hskip]
          rfl
      · next hskip =>
          cases hs : scanEntries allowed (entryDev dev md) es with
          | none => rw [hs] at h; exact absurd h (by simp)
          | some rc =>
              rw [hs] at h
              obtain ⟨rr, cc⟩ := rc
              have ih := dirs_scanEntries allowed (entryDev dev md) es rr cc hs
              simp only [Option.some.injEq, Prod.mk.injEq] at h
              obtain ⟨h1, h2⟩ := h
              subst h1
              rw [openedDirs, if_neg hskip]
              show rr.directories + 1 = _
              rw [ih]
  | unreadableDir md k hid =>
      rw [processEntry] at h
      split at h
      · next hskip =>
          simp only [Option.some.injEq, Prod.mk.injEq] at h
          obtain ⟨h1, h2⟩ := h
          subst h1
          rfl
      · next hskip =>
          simp only [Option.some.injEq, Prod.mk.injEq] at h
          obtain ⟨h1, h2⟩ := h
          subst h1
          cases k <;> rfl

theorem dirs_scanEntries (allowed : List Nat) (dev : Nat) (es : List FsNode)
    (r : ScanResult) (cs : List Filesize)
    (h : scanEntries allowed dev es = some (r, cs)) :
    r.directories = openedDirsList allowed dev es := by
  cases es with
  | nil =>
      rw [scanEntries] at h
      simp only [Option.some.injEq, Prod.mk.injEq] at h
      obtain ⟨h1, h2⟩ := h
      subst h1
      rfl
  | cons e es' =>
      rw [scanEntries] at h
      cases he : processEntry allowed dev e with
      | none => rw [he] at h; exact absurd h (by simp)
      | some rc1 =>
          rw [he] at h
          obtain ⟨r1, c1⟩ := rc1
          cases hes : scanEntries allowed dev es' with
          | none => rw [hes] at h; exact absurd h (by simp)
          | some rc2 =>
              rw [hes] at h
              obtain ⟨r2, c2⟩ := rc2
              have ih1 := dirs_processEntry allowed dev e r1 c1 he
              have ih2 := dirs_scanEntries allowed dev es' r2 c2 hes
              simp only [Option.some.injEq, Prod.mk.injEq] at h
              obtain ⟨h1, h2⟩ := h
              subst h1
              rw [openedDirsList, ← ih1, ← ih2]
              rfl

end

/-- Claim C1, failing evaluation.  With N = 3, minsize = 0 and the forwarded
candidates of sizes 100, 10 and 20 arriving largest-first, the aggregator ends
the scan with a single entry of size 100 — not the `min(3, 3) = 3` entries the
claim requires for a file set whose three members all have size ≥ minsize.
After accepting the size-100 candidate the code stores 100 into the shared
threshold although the set holds fewer than N entries, so the later candidates
are discarded by the `file.size > current_min` re-check. -/
theorem claim1_topk_count_failing_eval :
    (runAgg 3 0 [StatusUpdate.File ⟨"a", 100, "-", "-", "-"⟩,
                 StatusUpdate.File ⟨"b", 10, "-", "-", "-"⟩,
                 StatusUpdate.File ⟨"c", 20, "-", "-", "-"⟩]).entries.map Filesize.size = [100]
    ∧ (runAgg 3 0 [StatusUpdate.File ⟨"a", 100, "-", "-", "-"⟩,
                   StatusUpdate.File ⟨"b", 10, "-", "-", "-"⟩,
                   StatusUpdate.File ⟨"c", 20, "-", "-", "-"⟩]).entries.length ≠ min 3 3 := by
  decide

/-- Claim C2, failing evaluation.  With N = 2 and configured minimum size 0,
a single accepted candidate of size 5 makes the aggregator store 5 into the
shared threshold while the set holds only one entry — the claim says nothing
is published until the set holds exactly N entries.  Consequently a second
candidate of size 3 is then compared against floor 5 instead of the configured
minimum 0 and is rejected, leaving the set at one entry. -/
theorem claim2_early_publish_failing_eval :
    (runAgg 2 0 [StatusUpdate.File ⟨"a", 5, "-", "-", "-"⟩]).minSize = 5
    ∧ (runAgg 2 0 [StatusUpdate.File ⟨"a", 5, "-", "-", "-"⟩]).entries.length = 1
    ∧ (runAgg 2 0 [StatusUpdate.File ⟨"a", 5, "-", "-", "-"⟩,
                   StatusUpdate.File ⟨"b", 3, "-", "-", "-"⟩]).entries.map Filesize.size
        = [5] := by
  decide

/-- Claim C3, failing evaluation.  Scanning the same three files (sizes 100,
10, 20; N = 3, minsize = 0) twice, once with the candidates arriving
largest-first and once smallest-first, produces different final (path, size)
sets — `\x7b("a", 100)\x7d` versus `\x7b("a", 100), ("c", 20), ("b", 10)\x7d` —
refuting order-independence of the final top-K. -/
theorem claim3_order_dependence_failing_eval :
    ¬ ((runAgg 3 0 [StatusUpdate.File ⟨"a", 100, "-", "-", "-"⟩,
                    StatusUpdate.File ⟨"b", 10, "-", "-", "-"⟩,
                    StatusUpdate.File ⟨"c", 20, "-", "-", "-"⟩]).entries.map
          (fun f => (f.path, f.size))).Perm
      ((runAgg 3 0 [StatusUpdate.File ⟨"b", 10, "-", "-", "-"⟩,
                    StatusUpdate.File ⟨"c", 20, "-", "-", "-"⟩,
                    StatusUpdate.File ⟨"a", 100, "-", "-", "-"⟩]).entries.map
          (fun f => (f.path, f.size))) := by
  decide

/-- Claim C4, confirmed.  The shared threshold starts at the configured
minimum size, and processing any further event never decreases it: every
store the aggregator performs writes a value greater than or equal to the one
previously stored (in the embedding the walkers receive threshold values as
read-only inputs, matching the code where `scan_dir` only ever calls `load`). -/
theorem claim4_threshold_monotone (n m : Nat) (evs : List StatusUpdate) (ev : StatusUpdate) :
    (runAgg n m []).minSize = m ∧
    (runAgg n m evs).minSize ≤ (runAgg n m (evs ++ [ev])).minSize := by
  refine ⟨rfl, ?_⟩
  simp only [runAgg, List.foldl_append, List.foldl_cons, List.foldl_nil]
  exact (processEvent_step n _ ev (runAgg_inv n m evs)).1

/-- Claim C5, confirmed.  For N ≥ 1, immediately after the aggregator accepts
any candidate (its size exceeds the currently stored threshold), the shared
threshold equals the size of the smallest entry of the top-K set: it is one of
the retained sizes and is a lower bound for all of them — in particular the
threshold is already raised by the very first accepted candidate, not only
once the set holds N entries. -/
theorem claim5_threshold_tracks_smallest (n m : Nat) (evs : List StatusUpdate)
    (f : Filesize) (hn : 1 ≤ n) (hacc : (runAgg n m evs).minSize < f.size) :
    (runAgg n m (evs ++ [StatusUpdate.File f])).minSize
        ∈ (runAgg n m (evs ++ [StatusUpdate.File f])).entries.map Filesize.size ∧
    ∀ e ∈ (runAgg n m (evs ++ [StatusUpdate.File f])).entries,
        (runAgg n m (evs ++ [StatusUpdate.File f])).minSize ≤ e.size := by
  have h := processFile_accepted n (runAgg n m evs) f hn hacc
  simp only [runAgg, List.foldl_append, List.foldl_cons, List.foldl_nil]
  exact h

/-- Witness for claim C5 at N = 1, minsize = 0 and a first candidate of
size 5: the hypotheses hold and afterwards the threshold is 5, the size of the
single (hence smallest) retained entry. -/
theorem claim5_threshold_tracks_smallest_witness :
    (1 ≤ 1 ∧ (runAgg 1 0 []).minSize < 5) ∧
    ((runAgg 1 0 ([] ++ [StatusUpdate.File ⟨"a", 5, "-", "-", "-"⟩])).minSize
        ∈ (runAgg 1 0 ([] ++ [StatusUpdate.File ⟨"a", 5, "-", "-", "-"⟩])).entries.map
            Filesize.size ∧
      ∀ e ∈ (runAgg 1 0 ([] ++ [StatusUpdate.File ⟨"a", 5, "-", "-", "-"⟩])).entries,
        (runAgg 1 0 ([] ++ [StatusUpdate.File ⟨"a", 5, "-", "-", "-"⟩])).minSize ≤ e.size) :=
  ⟨⟨Nat.le_refl 1, by decide⟩,
   claim5_threshold_tracks_smallest 1 0 [] ⟨"a", 5, "-", "-", "-"⟩ (Nat.le_refl 1) (by decide)⟩

/-- Claim C6, failing evaluation.  A regular file whose first metadata read
succeeded (size 100, observed floor 0) but whose path disappears before the
second metadata read inside `From<PathBuf> for StatusUpdate` makes the scan
panic (`none`): the failure is recorded in no counter, and the sibling symlink
entry contributes nothing either — the traversal aborts instead of counting
the failure once in `error_count` and proceeding. -/
theorem claim6_disappearing_path_panic_eval :
    scanEntries [] 0 [FsNode.file "gone" 100 0 none, FsNode.symlink none] = none := rfl

/-- Claim C7, counterexample.  It is not the case that every send attempted
after the consumer has shut down is silently ignored: the candidate send is
(`unwrap_or_default`), but the result-delta send in `main` is unwrapped and
panics on a closed channel. -/
theorem claim7_send_escalation_counterexample :
    ¬ (candidateSendEffect (channelSend false) = some () ∧
       resultSendEffect (channelSend false) = some ()) := by
  decide

/-- Claim C7, amended.  Candidate-event sends are silently ignored whatever
the channel state, never escalating a send failure; the single result-delta
send performed in `main` succeeds while the consumer is alive but is
`unwrap`ped, so it panics if the channel has closed. -/
theorem claim7_amended_send_handling :
    (∀ o : SendOutcome, candidateSendEffect o = some ()) ∧
    resultSendEffect SendOutcome.delivered = some () ∧
    resultSendEffect SendOutcome.closed = none :=
  ⟨fun o => by cases o <;> rfl, rfl, rfl⟩

/-- Claim C8, confirmed.  Processing a symlink entry — whatever it points at,
including a directory — contributes exactly one `files` count and nothing
else, emits no candidate event, and performs no recursion: the result is a
constant, independent of the (never dereferenced) target. -/
theorem claim8_symlink_counted_never_recursed (allowed : List Nat) (dev : Nat)
    (target : Option FsNode) :
    processEntry allowed dev (FsNode.symlink target) = some (⟨0, 0, 1, 0⟩, []) := rfl

/-- Claim C9, confirmed.  First: a directory whose listing cannot be read
(and that is not skipped by the device boundary) contributes exactly one
`permission_denied` or `errors` count — with zero `directories` — and nothing
at all from its hidden subtree.  Second: whenever a scan completes without
panicking, its `directories` counter equals exactly the number of
successfully opened directories, the readable root included. -/
theorem claim9_unreadable_dir_and_dir_count :
    (∀ (allowed : List Nat) (dev : Nat) (md : Option Nat) (k : ErrKind)
        (hidden : List FsNode),
        dirSkip allowed dev md = false →
        processEntry allowed dev (FsNode.unreadableDir md k hidden)
          = some (countErr k, [])) ∧
    (∀ (allowed : List Nat) (dev : Nat) (t : FsNode) (r : ScanResult)
        (cs : List Filesize),
        scanDir allowed dev t = some (r, cs) →
        r.directories = openedDirsRoot allowed dev t) := by
  constructor
  · intro allowed dev md k hidden hskip
    rw [processEntry, if_neg (by simp [hskip])]
  · intro allowed dev t r cs h
    cases t with
    | readableDir md es =>
        rw [scanDir] at h
        cases hs : scanEntries allowed dev es with
        | none => rw [hs] at h; exact absurd h (by simp)
        | some rc =>
            rw [hs] at h
            obtain ⟨rr, cc⟩ := rc
            have ih := dirs_scanEntries allowed dev es rr cc hs
            simp only [Option.some.injEq, Prod.mk.injEq] at h
            obtain ⟨h1, h2⟩ := h
            subst h1
            rw [openedDirsRoot]
            show rr.directories + 1 = _
            rw [ih]
    | unreadableDir md k hid =>
        rw [scanDir] at h
        simp only [Option.some.injEq, Prod.mk.injEq] at h
        obtain ⟨h1, h2⟩ := h
        subst h1
        cases k <;> rfl
    | file p sz obs m2 =>
        injection h with h'
        injection h' with h1 h2
        subst h1
        rfl
    | symlink t =>
        injection h with h'
        injection h' with h1 h2
        subst h1
        rfl
    | fileMetaErr k =>
        injection h with h'
        injection h' with h1 h2
        subst h1
        rfl
    | typeErr k =>
        injection h with h'
        injection h' with h1 h2
        subst h1
        rfl

/-- Witness for claim C9: an unreadable (permission-denied) directory hiding
one entry contributes exactly one `permission_denied` count, and a concrete
two-directory tree (readable root containing a symlink and one readable empty
subdirectory) scans to `directories = 2`, the number of opened directories. -/
theorem claim9_unreadable_dir_and_dir_count_witness :
    (dirSkip [] 0 none = false ∧
      processEntry [] 0 (FsNode.unreadableDir none ErrKind.permission [FsNode.symlink none])
        = some (countErr ErrKind.permission, [])) ∧
    (scanDir [] 0 (FsNode.readableDir none [FsNode.symlink none, FsNode.readableDir none []])
        = some (⟨0, 0, 1, 2⟩, []) ∧
      (⟨0, 0, 1, 2⟩ : ScanResult).directories
        = openedDirsRoot [] 0
            (FsNode.readableDir none [FsNode.symlink none, FsNode.readableDir none []])) :=
  ⟨⟨rfl, claim9_unreadable_dir_and_dir_count.1 [] 0 none ErrKind.permission
      [FsNode.symlink none] rfl⟩,
   ⟨rfl, claim9_unreadable_dir_and_dir_count.2 [] 0
      (FsNode.readableDir none [FsNode.symlink none, FsNode.readableDir none []])
      ⟨0, 0, 1, 2⟩ [] rfl⟩⟩

/-- Claim C10, confirmed.  After the aggregator finishes processing any
prefix of events, the top-K list holds at most N entries. -/
theorem claim10_topk_bounded (n m : Nat) (evs : List StatusUpdate) :
    (runAgg n m evs).entries.length ≤ n := by
  have key : ∀ (l : List StatusUpdate) (s : AggState), s.entries.length ≤ n →
      (l.foldl (processEvent n) s).entries.length ≤ n := by
    intro l
    induction l with
    | nil => intro s h; exact h
    | cons ev l ih => intro s h; exact ih _ (processEvent_length n s ev h)
  exact key evs _ (Nat.zero_le n)
